import Mathlib

/-!
Shallow embedding of `src/autoreject/ransac.py` (RANSAC bad-sensor detection
for multichannel recordings).  Real-valued signal data is modelled with exact
rationals `ℚ`; the IEEE NaN produced by a zero denominator in the correlation
step is modelled as `none` in `Option ℚ` / `Option ℝ`.  External collaborators
(the numpy random generator, the mne interpolation kernels, mne channel
metadata) are parameters of the embedding.
-/

namespace AutorejectRansac

/-- numpy rounding `np.round` on a scalar: round half to even. -/
def npRound (q : ℚ) : ℤ :=
  if q - ⌊q⌋ < 1/2 then ⌊q⌋
  else if 1/2 < q - ⌊q⌋ then ⌊q⌋ + 1
  else if ⌊q⌋ % 2 = 0 then ⌊q⌋ else ⌊q⌋ + 1

/-- Subset size in `_get_random_subsets`:
`n_samples = int(np.round(self.min_channels * n_channels))`
(nonnegative for the documented range `min_channels ∈ (0, 1]`). -/
def nSamples (minChannels : ℚ) (nChannels : ℕ) : ℕ :=
  (npRound (minChannels * nChannels)).toNat

/-- Index subsets drawn in `_get_random_subsets`:
`pick = rng.permutation(n_channels)[:n_samples].copy()`, appended for
`idx in range(self.n_resample)`.  The seeded numpy `RandomState` is modelled
by the stream `perm` of its successive `permutation(n_channels)` outputs
(the seed is applied once, so the stream is fixed for the whole loop). -/
def getRandomPicks (perm : ℕ → List ℕ) (minChannels : ℚ) (nChannels nResample : ℕ) :
    List (List ℕ) :=
  (List.range nResample).map fun k => (perm k).take (nSamples minChannels nChannels)

/-- Return value of `_get_random_subsets`: each pick converted to channel
names, `ch_subsets.append([info['ch_names'][p] for p in pick])`. -/
def getRandomSubsets (chNames : List String) (perm : ℕ → List ℕ) (minChannels : ℚ)
    (nResample : ℕ) : List (List String) :=
  (getRandomPicks perm minChannels chNames.length nResample).map fun pick =>
    pick.map fun p => chNames.getD p ""

/-- Recovered index array in `_get_mappings`:
`pick_from = np.array([ch_names.index(name) for name in ch_subsets[idx]])`
(Python `list.index` returns the first occurrence, `List.indexOf`). -/
def pickFrom (chNames : List String) (subset : List String) : List ℕ :=
  subset.map fun name => chNames.indexOf name

/-- numpy column assignment `M[:, col] = v` on a matrix viewed as a function. -/
def setCol (M : ℕ → ℕ → ℚ) (col : ℕ) (v : ℕ → ℚ) : ℕ → ℕ → ℚ :=
  fun i j => if j = col then v i else M i j

/-- One `mapping` block of `_get_mappings`: `mapping = np.zeros((C, C))`
followed by the fancy assignment `mapping[:, pick_from] = K`, performed
column by column in index order (column `pick_from[k]` receives column `k`
of the kernel output `K`). -/
def buildMapping (pf : List ℕ) (K : ℕ → ℕ → ℚ) : ℕ → ℕ → ℚ :=
  (List.range pf.length).foldl (fun M k => setCol M (pf.getD k 0) fun i => K i k)
    (fun _ _ => 0)

/-- Return value of `_get_mappings` as a list-of-rows matrix: one `(C × C)`
block per channel subset, blocks stacked vertically by
`mappings = np.concatenate(mappings)`.  The interpolation kernel
(`_make_interpolation_matrix` for EEG / `_fast_map_meg_channels` for MEG,
both external to this source file) is the abstract parameter `kernel`,
applied to the recovered `pick_from` indices of each subset. -/
def getMappings (chNames : List String) (kernel : List ℕ → ℕ → ℕ → ℚ)
    (chSubsets : List (List String)) : List (List ℚ) :=
  (chSubsets.map fun subset =>
    (List.range chNames.length).map fun i =>
      (List.range chNames.length).map fun j =>
        buildMapping (pickFrom chNames subset) (kernel (pickFrom chNames subset)) i j).flatten

/-- Chunk sizes of `np.array_split(np.arange(n), k)`: the first `n % k`
chunks have `n / k + 1` elements, the remaining ones `n / k`. -/
def splitSizes (n k : ℕ) : List ℕ :=
  (List.range k).map fun i => if i < n % k then n / k + 1 else n / k

/-- Split a list into consecutive chunks of the given sizes. -/
def splitBySizes {α : Type} : List ℕ → List α → List (List α)
  | [], _ => []
  | s :: ss, l => l.take s :: splitBySizes ss (l.drop s)

/-- The partition `np.array_split(np.arange(n_epochs), n_jobs)` used by
`fit`: contiguous, order-preserving chunks of the segment index range. -/
def arraySplit (n k : ℕ) : List (List ℕ) := splitBySizes (splitSizes n k) (List.range n)

/-- The worker `_iterate_epochs(ransac, epochs, idxs, verbose)`: one
correlation row per chunk element.  The loop is
`for idx, _ in enumerate(_pbar(idxs, ...))`, so `idx` is bound to the local
counter `0 .. len(idxs)-1` and the epoch scored is `epochs[idx]` — the actual
chunk values in `idxs` are discarded.  `score i` abstracts the row
`_compute_correlations(epochs[i])`. -/
def iterateEpochs {α : Type} (score : ℕ → α) (idxs : List ℕ) : List α :=
  (List.range idxs.length).map fun idx => score idx

/-- Correlation-matrix assembly in `fit`:
`corrs = parallel(my_iterator(self, epochs, idxs, verbose) for idxs in
np.array_split(np.arange(n_epochs), n_jobs))` followed by
`self.corr_ = np.concatenate(corrs)` (results concatenated in
partition-index order, as joblib returns them in submission order). -/
def fitCorrs {α : Type} (score : ℕ → α) (nEpochs nJobs : ℕ) : List α :=
  ((arraySplit nEpochs nJobs).map (iterateEpochs score)).flatten

/-- IEEE float comparison `x < m` where `x` may be NaN (modelled `none`):
every comparison with NaN is false. -/
def flagLt (x : Option ℚ) (m : ℚ) : Bool :=
  match x with
  | none => false
  | some v => decide (v < m)

/-- Entry of `self.bad_log`: `np.zeros_like(self.corr_)` followed by
`self.bad_log[self.corr_ < self.min_corr] = 1`. -/
def badLog (corr : ℕ → ℕ → Option ℚ) (minCorr : ℚ) (i j : ℕ) : ℚ :=
  if flagLt (corr i j) minCorr then 1 else 0

/-- Per-sensor tally `bad_log = self.bad_log.sum(axis=0)`: how many segments
scored below `min_corr` for sensor `j`. -/
def badTally (nEpochs : ℕ) (corr : ℕ → ℕ → Option ℚ) (minCorr : ℚ) (j : ℕ) : ℚ :=
  ∑ i ∈ Finset.range nEpochs, badLog corr minCorr i j

/-- Flagged indices `bad_idx = np.where(bad_log > self.unbroken_time * n_epochs)[0]`
(`np.where` on a 1-D mask lists the true positions in increasing order). -/
def badIdx (nChannels nEpochs : ℕ) (corr : ℕ → ℕ → Option ℚ) (minCorr unbrokenTime : ℚ) :
    List ℕ :=
  (List.range nChannels).filter fun j =>
    decide (unbrokenTime * nEpochs < badTally nEpochs corr minCorr j)

/-- Final `self.bad_chs_`: channel names at `bad_idx` when `len(bad_idx) > 0`,
otherwise the empty list. -/
def badChs (chNames : List String) (nEpochs : ℕ) (corr : ℕ → ℕ → Option ℚ)
    (minCorr unbrokenTime : ℚ) : List String :=
  if 0 < (badIdx chNames.length nEpochs corr minCorr unbrokenTime).length then
    (badIdx chNames.length nEpochs corr minCorr unbrokenTime).map fun p => chNames.getD p ""
  else []

/-- Entry `(t, j)` of `y_pred = inst.get_data()[0].T.dot(mappings.T)`, where
`data` is the `(C × T)` segment and `mappings` the `(R·C × C)` stacked
operator: `Σ_s data[s, t] · mappings[j, s]`. -/
def yPredFlat (nChannels : ℕ) (data mappings : ℕ → ℕ → ℚ) (t j : ℕ) : ℚ :=
  ∑ s ∈ Finset.range nChannels, data s t * mappings j s

/-- numpy `A.reshape((T, C, R), order='F')` of a `(T, R·C)` array: the
destination entry `(t, c, r)` has Fortran flat index `t + T·(c + C·r)`, and
the source entry with Fortran flat index `k` is `A[k % T, k / T]`. -/
def reshapeF (T C : ℕ) (A : ℕ → ℕ → ℚ) (t c r : ℕ) : ℚ :=
  A ((t + T * (c + C * r)) % T) ((t + T * (c + C * r)) / T)

/-- numpy `np.median` of a 1-D array: sort, take the middle element for odd
length, and the mean of the two middle elements for even length.  (numpy
maps an empty array to NaN; the empty case is never reached here because
`fit` always draws `n_resample ≥ 1` resamples.) -/
def npMedian (l : List ℚ) : ℚ :=
  let s := List.insertionSort (fun a b => a ≤ b) l
  if l.length % 2 = 1 then s.getD (l.length / 2) 0
  else (s.getD (l.length / 2 - 1) 0 + s.getD (l.length / 2) 0) / 2

/-- Median pooling `y_pred = np.median(y_pred, axis=-1)` at `(t, c)`: the
median over the `n_resample` axis of the reshaped prediction array. -/
def pooledPred (nChannels nResample T : ℕ) (data mappings : ℕ → ℕ → ℚ) (t c : ℕ) : ℚ :=
  npMedian ((List.range nResample).map fun r =>
    reshapeF T nChannels (yPredFlat nChannels data mappings) t c r)

/-- Numerator `num = np.sum(inst.get_data()[0].T * y_pred, axis=0)` at sensor
`c`: the uncentered inner product of actual and pooled predicted series. -/
def corrNum (nChannels nResample T : ℕ) (data mappings : ℕ → ℕ → ℚ) (c : ℕ) : ℚ :=
  ∑ t ∈ Finset.range T, data c t * pooledPred nChannels nResample T data mappings t c

/-- Actual-signal energy `np.sum(inst.get_data()[0].T ** 2, axis=0)` at `c`. -/
def sumSqActual (T : ℕ) (data : ℕ → ℕ → ℚ) (c : ℕ) : ℚ :=
  ∑ t ∈ Finset.range T, data c t ^ 2

/-- Predicted-signal energy `np.sum(y_pred ** 2, axis=0)` at `c`. -/
def sumSqPred (nChannels nResample T : ℕ) (data mappings : ℕ → ℕ → ℚ) (c : ℕ) : ℚ :=
  ∑ t ∈ Finset.range T, pooledPred nChannels nResample T data mappings t c ^ 2

/-- Sensor `c` of the row returned by `_compute_correlations`:
`corr = num / denom` with `denom = sqrt(Σ actual²) · sqrt(Σ pred²)`.  When the
denominator is zero the numerator is forced to zero as well and IEEE `0/0`
yields NaN, modelled as `none`. -/
noncomputable def computeCorrelations (nChannels nResample T : ℕ) (data mappings : ℕ → ℕ → ℚ)
    (c : ℕ) : Option ℝ :=
  if sumSqActual T data c = 0 ∨ sumSqPred nChannels nResample T data mappings c = 0 then
    none
  else
    some ((corrNum nChannels nResample T data mappings c : ℝ) /
      (Real.sqrt (sumSqActual T data c) *
        Real.sqrt (sumSqPred nChannels nResample T data mappings c)))

/-- mne channel-type tags: the two supported families (`mag`/`grad` forming
`meg`, and `eeg`) plus representatives of the unsupported types. -/
inductive ChanType
  | mag
  | grad
  | eeg
  | eog
  | stim
deriving DecidableEq

/-- mne membership test `'meg' in epochs`: true when magnetometer or
gradiometer channels are present. -/
def megPresent (chTypes : List ChanType) : Bool :=
  decide (ChanType.mag ∈ chTypes) || decide (ChanType.grad ∈ chTypes)

/-- mne membership test `'eeg' in epochs`. -/
def eegPresent (chTypes : List ChanType) : Bool :=
  decide (ChanType.eeg ∈ chTypes)

/-- Validation `_get_channel_type(epochs)`: reject recordings with channel
types outside `['mag', 'grad', 'eeg']`, then reject mixed EEG/MEG recordings,
then report the single family present.  When no supported family is present
(and no invalid one either) the Python function falls through and implicitly
returns `None`, modelled as `Except.ok none`. -/
def getChannelType (chTypes : List ChanType) : Except String (Option String) :=
  let invalid := chTypes.filter fun t =>
    decide (t ≠ ChanType.mag ∧ t ≠ ChanType.grad ∧ t ≠ ChanType.eeg)
  if 0 < invalid.length then
    Except.error "Invalid channel types present in epochs. Expected ONLY meg or ONLY eeg."
  else if megPresent chTypes && eegPresent chTypes then
    Except.error "Got mixed channel types. Pick either eeg or meg but not both"
  else if eegPresent chTypes then Except.ok (some "eeg")
  else if megPresent chTypes then Except.ok (some "meg")
  else Except.ok none

/-- Modelled from the spec: `_check_data` (defined in `autoreject.py`, which
is not part of this source file) performs only structural shape and
dimensionality validation of the recording; the typed embedding enforces a
rectangular `(segments × sensors × samples)` layout by construction, so the
check always succeeds here. -/
def checkData (_chTypes : List ChanType) : Except String Unit := Except.ok ()

/-- Validation-then-sampling head of `fit`: `_check_data(epochs)`, then
`self.ch_type = _get_channel_type(epochs)`, then
`self.ch_subsets_ = self._get_random_subsets(epochs.info)`.  A validation
error aborts `fit` before any random subset is drawn (and hence before any
operator is built); on success the sampled subsets are produced. -/
def fitSubsets (chNames : List String) (chTypes : List ChanType) (perm : ℕ → List ℕ)
    (minChannels : ℚ) (nResample : ℕ) :
    Except String (Option String × List (List String)) :=
  match checkData chTypes with
  | Except.error msg => Except.error msg
  | Except.ok _ =>
    match getChannelType chTypes with
    | Except.error msg => Except.error msg
    | Except.ok ct => Except.ok (ct, getRandomSubsets chNames perm minChannels nResample)

/-! Helper lemmas. -/

lemma npRound_le {q : ℚ} {n : ℤ} (h : q ≤ n) : npRound q ≤ n := by
  have hfl : ⌊q⌋ ≤ n := by
    have h' := Int.floor_le_floor h
    simpa using h'
  unfold npRound
  split_ifs with h1 h2 h3
  · exact hfl
  all_goals {
    have hge : (1 : ℚ) / 2 ≤ q - ⌊q⌋ := le_of_not_lt h1
    have hlt : ⌊q⌋ < n := by
      rcases lt_or_eq_of_le hfl with hlt | heq
      · exact hlt
      · exfalso
        have hq1 : (⌊q⌋ : ℚ) + 1 / 2 ≤ q := by linarith
        have hq2 : q ≤ (⌊q⌋ : ℚ) := by rw [heq]; exact_mod_cast h
        linarith
    omega }

lemma nSamples_le {minChannels : ℚ} (h : minChannels ≤ 1) (nChannels : ℕ) :
    nSamples minChannels nChannels ≤ nChannels := by
  unfold nSamples
  have hle : minChannels * nChannels ≤ ((nChannels : ℤ) : ℚ) := by
    have := mul_le_mul_of_nonneg_right h (by positivity : (0 : ℚ) ≤ (nChannels : ℚ))
    push_cast
    linarith
  exact Int.toNat_le.mpr (npRound_le hle)

/-! ### C1 -/

/-- C1: the claim fails on the code.  `_iterate_epochs` binds `idx` to the
local `enumerate` counter and scores `epochs[idx]`, ignoring the actual chunk
indices it was handed, so with `n_epochs = 2` and `n_jobs = 2` both workers
score epoch 0 and the assembled correlation matrix is `[score 0, score 0]`,
while the fully sequential run (`n_jobs = 1`) yields `[score 0, score 1]`. -/
theorem C1_parallel_chunking_bug :
    fitCorrs (fun i => (i : ℚ)) 2 1 = [0, 1] ∧
    fitCorrs (fun i => (i : ℚ)) 2 2 = [0, 0] ∧
    fitCorrs (fun i => (i : ℚ)) 2 2 ≠ fitCorrs (fun i => (i : ℚ)) 2 1 := by
  refine ⟨by decide, by decide, ?_⟩
  decide

/-! ### C4 -/

/-- C4: `_get_random_subsets` draws exactly `n_resample` index subsets; each
pick has exactly `round(min_channels · C)` pairwise-distinct indices from
`[0, C)` and is a prefix (`List.take`) of a permutation of `[0, C)`; the
returned name subsets are exactly these picks read through `ch_names`. -/
theorem C4_random_subsets (chNames : List String) (perm : ℕ → List ℕ)
    (minChannels : ℚ) (nResample : ℕ)
    (hperm : ∀ k, (perm k).Perm (List.range chNames.length))
    (_hf0 : 0 < minChannels) (hf1 : minChannels ≤ 1) :
    (getRandomPicks perm minChannels chNames.length nResample).length = nResample ∧
    (getRandomSubsets chNames perm minChannels nResample).length = nResample ∧
    (∀ pick ∈ getRandomPicks perm minChannels chNames.length nResample,
      pick.length = nSamples minChannels chNames.length ∧ pick.Nodup ∧
      (∀ x ∈ pick, x < chNames.length) ∧
      ∃ p : List ℕ, p.Perm (List.range chNames.length) ∧
        pick = p.take (nSamples minChannels chNames.length)) ∧
    getRandomSubsets chNames perm minChannels nResample =
      (getRandomPicks perm minChannels chNames.length nResample).map
        (fun pick => pick.map fun p => chNames.getD p "") := by
  refine ⟨by simp [getRandomPicks], by simp [getRandomSubsets, getRandomPicks], ?_, rfl⟩
  intro pick hpick
  simp only [getRandomPicks, List.mem_map, List.mem_range] at hpick
  obtain ⟨k, _hk, rfl⟩ := hpick
  have hlen : (perm k).length = chNames.length := by
    simpa using (hperm k).length_eq
  refine ⟨?_, ?_, ?_, perm k, hperm k, rfl⟩
  · rw [List.length_take, hlen]
    exact Nat.min_eq_left (nSamples_le hf1 _)
  · exact ((perm k).take_sublist _).nodup ((hperm k).nodup_iff.mpr (List.nodup_range _))
  · intro x hx
    have hx' : x ∈ perm k := List.mem_of_mem_take hx
    have := (hperm k).mem_iff.mp hx'
    simpa using this

/-- Witness for C4 at a concrete recording with two channels. -/
theorem C4_random_subsets_witness :
    ((∀ _k : ℕ, ([1, 0] : List ℕ).Perm (List.range 2)) ∧
      (0 : ℚ) < 1/2 ∧ (1/2 : ℚ) ≤ 1) ∧
    ((getRandomPicks (fun _ => [1, 0]) (1/2) ["a", "b"].length 3).length = 3 ∧
      (getRandomSubsets ["a", "b"] (fun _ => [1, 0]) (1/2) 3).length = 3 ∧
      (∀ pick ∈ getRandomPicks (fun _ => [1, 0]) (1/2) ["a", "b"].length 3,
        pick.length = nSamples (1/2) ["a", "b"].length ∧ pick.Nodup ∧
        (∀ x ∈ pick, x < ["a", "b"].length) ∧
        ∃ p : List ℕ, p.Perm (List.range ["a", "b"].length) ∧
          pick = p.take (nSamples (1/2) ["a", "b"].length)) ∧
      getRandomSubsets ["a", "b"] (fun _ => [1, 0]) (1/2) 3 =
        (getRandomPicks (fun _ => [1, 0]) (1/2) ["a", "b"].length 3).map
          (fun pick => pick.map fun p => ["a", "b"].getD p "")) :=
  ⟨⟨fun _ => by decide, by norm_num, by norm_num⟩,
    C4_random_subsets ["a", "b"] (fun _ => [1, 0]) (1/2) 3
      (fun _ => (by decide : ([1, 0] : List ℕ).Perm (List.range 2)))
      (by norm_num) (by norm_num)⟩

/-! ### C10 -/

/-- C10: with pairwise-distinct channel names, converting each sampled index
subset to names (`_get_random_subsets`) and recovering indices with
`ch_names.index(name)` (`_get_mappings`) is a round trip: the `pick_from`
arrays equal the originally drawn picks, element for element and in order. -/
theorem C10_name_index_roundtrip (chNames : List String) (perm : ℕ → List ℕ)
    (minChannels : ℚ) (nResample : ℕ) (hnd : chNames.Nodup)
    (hperm : ∀ k, (perm k).Perm (List.range chNames.length)) :
    (getRandomSubsets chNames perm minChannels nResample).map (pickFrom chNames) =
      getRandomPicks perm minChannels chNames.length nResample := by
  unfold getRandomSubsets pickFrom
  rw [List.map_map]
  conv_rhs => rw [← List.map_id (getRandomPicks perm minChannels chNames.length nResample)]
  apply List.map_congr_left
  intro pick hpick
  simp only [getRandomPicks, List.mem_map, List.mem_range] at hpick
  obtain ⟨k, _hk, rfl⟩ := hpick
  simp only [Function.comp_apply, List.map_map, id_eq]
  conv_rhs => rw [← List.map_id ((perm k).take (nSamples minChannels chNames.length))]
  apply List.map_congr_left
  intro p hp
  have hp' : p ∈ perm k := List.mem_of_mem_take hp
  have hplt : p < chNames.length := by
    have := (hperm k).mem_iff.mp hp'
    simpa using this
  simp only [Function.comp_apply, id_eq]
  rw [List.getD_eq_getElem _ _ hplt]
  exact List.indexOf_getElem hnd p hplt

/-- Witness for C10 at a concrete two-channel recording. -/
theorem C10_name_index_roundtrip_witness :
    (["a", "b"].Nodup ∧
      (∀ _k : ℕ, ([1, 0] : List ℕ).Perm (List.range 2))) ∧
    (getRandomSubsets ["a", "b"] (fun _ => [1, 0]) (1/2) 2).map (pickFrom ["a", "b"]) =
      getRandomPicks (fun _ => [1, 0]) (1/2) ["a", "b"].length 2 :=
  ⟨⟨by decide, fun _ => by decide⟩,
    C10_name_index_roundtrip ["a", "b"] (fun _ => [1, 0]) (1/2) 2 (by decide)
      (fun _ => (by decide : ([1, 0] : List ℕ).Perm (List.range 2)))⟩

/-! ### C6 -/

lemma map_getD_range (l : List String) :
    (List.range l.length).map (fun p => l.getD p "") = l := by
  apply List.ext_getElem
  · simp
  · intro i h1 h2
    simp only [List.getElem_map, List.getElem_range]
    exact List.getD_eq_getElem l "" h2

/-- C6: after the tallying step of `fit`, a channel index is flagged iff its
tally strictly exceeds `unbroken_time · n_epochs`; `bad_chs_` is exactly the
flagged indices read through `ch_names` (hence an order-preserving sublist of
the original name list); it is empty when no sensor exceeds the threshold;
and with `unbroken_time = 1` a sensor scoring badly on fewer than all
segments is never flagged. -/
theorem C6_bad_sensor_selection (chNames : List String) (nEpochs : ℕ)
    (corr : ℕ → ℕ → Option ℚ) (minCorr unbrokenTime : ℚ) :
    (∀ j, j < chNames.length →
      (j ∈ badIdx chNames.length nEpochs corr minCorr unbrokenTime ↔
        unbrokenTime * nEpochs < badTally nEpochs corr minCorr j)) ∧
    badChs chNames nEpochs corr minCorr unbrokenTime =
      (badIdx chNames.length nEpochs corr minCorr unbrokenTime).map
        (fun p => chNames.getD p "") ∧
    ((∀ j, ¬ unbrokenTime * nEpochs < badTally nEpochs corr minCorr j) →
      badChs chNames nEpochs corr minCorr unbrokenTime = []) ∧
    (unbrokenTime = 1 →
      ∀ j, badTally nEpochs corr minCorr j < nEpochs →
        j ∉ badIdx chNames.length nEpochs corr minCorr unbrokenTime) ∧
    (badChs chNames nEpochs corr minCorr unbrokenTime).Sublist chNames := by
  have hmem : ∀ j, j < chNames.length →
      (j ∈ badIdx chNames.length nEpochs corr minCorr unbrokenTime ↔
        unbrokenTime * nEpochs < badTally nEpochs corr minCorr j) := by
    intro j hj
    simp [badIdx, List.mem_filter, List.mem_range, hj]
  have hchs : badChs chNames nEpochs corr minCorr unbrokenTime =
      (badIdx chNames.length nEpochs corr minCorr unbrokenTime).map
        (fun p => chNames.getD p "") := by
    unfold badChs
    split_ifs with h
    · rfl
    · have h0 : (badIdx chNames.length nEpochs corr minCorr unbrokenTime).length = 0 := by
        omega
      rw [List.length_eq_zero.mp h0]
      rfl
  refine ⟨hmem, hchs, ?_, ?_, ?_⟩
  · intro hnone
    have h0 : badIdx chNames.length nEpochs corr minCorr unbrokenTime = [] := by
      apply List.filter_eq_nil_iff.mpr
      intro j _
      simpa using hnone j
    rw [hchs, h0]
    rfl
  · intro hu j hlt hmemj
    have hj : j < chNames.length := by
      have := List.mem_range.mp (List.mem_of_mem_filter hmemj)
      exact this
    have := (hmem j hj).mp hmemj
    rw [hu, one_mul] at this
    exact absurd hlt (not_lt.mpr (le_of_lt this))
  · rw [hchs]
    have hsub : List.Sublist (badIdx chNames.length nEpochs corr minCorr unbrokenTime)
        (List.range chNames.length) := List.filter_sublist _
    have := hsub.map (fun p => chNames.getD p "")
    rwa [map_getD_range] at this

/-- Witness for C6 at a concrete one-channel recording with one segment. -/
theorem C6_bad_sensor_selection_witness :
    ((0 : ℕ) < ["a"].length) ∧
    (0 ∈ badIdx ["a"].length 1 (fun _ _ => some 0) (3/4) (2/5) ↔
      (2/5 : ℚ) * (1 : ℕ) < badTally 1 (fun _ _ => some 0) (3/4) 0) :=
  ⟨by decide,
    (C6_bad_sensor_selection ["a"] 1 (fun _ _ => some 0) (3/4) (2/5)).1 0 (by decide)⟩

/-! ### C7 -/

lemma filter_length_mono {p q : ℕ → Bool} (l : List ℕ)
    (h : ∀ a, p a = true → q a = true) :
    (l.filter p).length ≤ (l.filter q).length := by
  induction l with
  | nil => simp
  | cons a t ih =>
    by_cases hp : p a = true
    · rw [List.filter_cons_of_pos hp, List.filter_cons_of_pos (h a hp)]
      simpa using ih
    · rw [List.filter_cons_of_neg (by simpa using hp)]
      cases hq : q a with
      | false =>
        rw [List.filter_cons_of_neg (by simp [hq])]
        exact ih
      | true =>
        rw [List.filter_cons_of_pos hq]
        exact le_trans ih (by simp)

lemma badTally_mono_minCorr (nEpochs : ℕ) (corr : ℕ → ℕ → Option ℚ) {m m' : ℚ}
    (h : m' ≤ m) (j : ℕ) :
    badTally nEpochs corr m' j ≤ badTally nEpochs corr m j := by
  apply Finset.sum_le_sum
  intro i _
  unfold badLog flagLt
  cases hc : corr i j with
  | none => simp
  | some v =>
    simp only
    split_ifs with h1 h2
    · exact le_refl 1
    · exfalso
      simp only [decide_eq_true_eq] at h1 h2
      exact h2 (lt_of_lt_of_le h1 h)
    · norm_num
    · exact le_refl 0

lemma badChs_length (chNames : List String) (nEpochs : ℕ) (corr : ℕ → ℕ → Option ℚ)
    (minCorr unbrokenTime : ℚ) :
    (badChs chNames nEpochs corr minCorr unbrokenTime).length =
      (badIdx chNames.length nEpochs corr minCorr unbrokenTime).length := by
  unfold badChs
  split_ifs with h
  · simp
  · simp only [List.length_nil]
    omega

/-- C7: for a fixed correlation matrix and segment count, lowering `min_corr`
never increases the number of flagged sensors, and raising `unbroken_time`
never increases it either. -/
theorem C7_threshold_monotonicity (chNames : List String) (nEpochs : ℕ)
    (corr : ℕ → ℕ → Option ℚ) (minCorr minCorr' unbrokenTime unbrokenTime' : ℚ)
    (hm : minCorr' ≤ minCorr) (hu : unbrokenTime ≤ unbrokenTime') :
    (badChs chNames nEpochs corr minCorr' unbrokenTime).length ≤
      (badChs chNames nEpochs corr minCorr unbrokenTime).length ∧
    (badChs chNames nEpochs corr minCorr unbrokenTime').length ≤
      (badChs chNames nEpochs corr minCorr unbrokenTime).length := by
  rw [badChs_length, badChs_length, badChs_length]
  constructor
  · apply filter_length_mono
    intro j hj
    simp only [decide_eq_true_eq] at hj ⊢
    exact lt_of_lt_of_le hj (badTally_mono_minCorr nEpochs corr hm j)
  · apply filter_length_mono
    intro j hj
    simp only [decide_eq_true_eq] at hj ⊢
    refine lt_of_le_of_lt ?_ hj
    exact mul_le_mul_of_nonneg_right hu (Nat.cast_nonneg _)

/-- Witness for C7 at a concrete configuration. -/
theorem C7_threshold_monotonicity_witness :
    ((1/2 : ℚ) ≤ 3/4 ∧ (2/5 : ℚ) ≤ 1) ∧
    ((badChs ["a"] 1 (fun _ _ => some 0) (1/2) (2/5)).length ≤
      (badChs ["a"] 1 (fun _ _ => some 0) (3/4) (2/5)).length ∧
    (badChs ["a"] 1 (fun _ _ => some 0) (3/4) 1).length ≤
      (badChs ["a"] 1 (fun _ _ => some 0) (3/4) (2/5)).length) :=
  ⟨⟨by norm_num, by norm_num⟩,
    C7_threshold_monotonicity ["a"] 1 (fun _ _ => some 0) (3/4) (1/2) (2/5) 1
      (by norm_num) (by norm_num)⟩

/-! ### C9 -/

/-- C9: a NaN correlation entry (modelled `none`) always compares false
against `min_corr`, contributes `0` to the bad log, and — when a sensor's
whole column is NaN — leaves its tally at zero, so it is never flagged for
any nonnegative `unbroken_time`; no error is raised (the classifier is a
total function). -/
theorem C9_nan_entries (nChannels nEpochs : ℕ) (corr : ℕ → ℕ → Option ℚ)
    (minCorr unbrokenTime : ℚ) (i j : ℕ) (hnan : corr i j = none) :
    flagLt (corr i j) minCorr = false ∧
    badLog corr minCorr i j = 0 ∧
    ((∀ i', corr i' j = none) →
      badTally nEpochs corr minCorr j = 0 ∧
      (0 ≤ unbrokenTime →
        j ∉ badIdx nChannels nEpochs corr minCorr unbrokenTime)) := by
  have hflag : flagLt (corr i j) minCorr = false := by rw [hnan]; rfl
  refine ⟨hflag, ?_, ?_⟩
  · unfold badLog
    rw [hflag]
    simp
  · intro hall
    have htally : badTally nEpochs corr minCorr j = 0 := by
      apply Finset.sum_eq_zero
      intro i' _
      unfold badLog
      rw [hall i']
      simp [flagLt]
    refine ⟨htally, ?_⟩
    intro hu hmem
    simp only [badIdx, List.mem_filter, decide_eq_true_eq] at hmem
    have hlt := hmem.2
    rw [htally] at hlt
    exact absurd hlt (not_lt.mpr (mul_nonneg hu (Nat.cast_nonneg _)))

/-- Witness for C9 at a concrete all-NaN column. -/
theorem C9_nan_entries_witness :
    ((fun (_ : ℕ) (_ : ℕ) => (none : Option ℚ)) 0 0 = none) ∧
    (flagLt ((fun _ _ => (none : Option ℚ)) 0 0) (3/4) = false ∧
      badLog (fun _ _ => none) (3/4) 0 0 = 0 ∧
      ((∀ i' : ℕ, (fun (_ : ℕ) (_ : ℕ) => (none : Option ℚ)) i' 0 = none) →
        badTally 2 (fun _ _ => none) (3/4) 0 = 0 ∧
        ((0 : ℚ) ≤ 2/5 → 0 ∉ badIdx 1 2 (fun _ _ => none) (3/4) (2/5)))) :=
  ⟨rfl, C9_nan_entries 1 2 (fun _ _ => none) (3/4) (2/5) 0 0 rfl⟩

/-! ### C8 -/

/-- C8 counterexample: a recording with no channels at all has neither
supported family present, yet `_get_channel_type` falls through and returns
`None` without raising, and `fit` proceeds to draw its random subsets — so
the claim as stated ("neither family present implies a fatal error before
sampling") fails at this concrete input. -/
theorem C8_counterexample_empty_recording :
    megPresent [] = false ∧ eegPresent [] = false ∧
    getChannelType [] = Except.ok none ∧
    fitSubsets [] [] (fun _ => []) (1/4) 2 = Except.ok (none, [[], []]) := by
  refine ⟨rfl, rfl, rfl, ?_⟩
  simp [fitSubsets, checkData, getChannelType, getRandomSubsets, getRandomPicks,
    nSamples, npRound, megPresent, eegPresent]

/-- C8 (amended): for every recording in which both supported families are
present, or in which at least one channel is present but neither supported
family is, `fit` fails with a fatal validation error (raised before any
random subset is sampled and before any operator is built, as the
channel-type check precedes both stages). -/
theorem C8_channel_type_validation (chNames : List String) (chTypes : List ChanType)
    (perm : ℕ → List ℕ) (minChannels : ℚ) (nResample : ℕ)
    (h : (megPresent chTypes = true ∧ eegPresent chTypes = true) ∨
      (chTypes ≠ [] ∧ megPresent chTypes = false ∧ eegPresent chTypes = false)) :
    ∃ msg, fitSubsets chNames chTypes perm minChannels nResample =
      Except.error msg := by
  suffices h' : ∃ msg, getChannelType chTypes = Except.error msg by
    obtain ⟨msg, hmsg⟩ := h'
    refine ⟨msg, ?_⟩
    unfold fitSubsets checkData
    rw [hmsg]
  unfold getChannelType
  rcases h with ⟨hm, he⟩ | ⟨hne, hm, he⟩
  · by_cases hinv : 0 < (chTypes.filter fun t =>
        decide (t ≠ ChanType.mag ∧ t ≠ ChanType.grad ∧ t ≠ ChanType.eeg)).length
    · rw [if_pos hinv]
      exact ⟨_, rfl⟩
    · rw [if_neg hinv, if_pos (by rw [hm, he]; rfl)]
      exact ⟨_, rfl⟩
  · obtain ⟨t0, ht0⟩ : ∃ t0, t0 ∈ chTypes := by
      cases chTypes with
      | nil => exact absurd rfl hne
      | cons a l => exact ⟨a, List.mem_cons_self a l⟩
    have hmag : ChanType.mag ∉ chTypes := by
      intro hc
      simp [megPresent, hc] at hm
    have hgrad : ChanType.grad ∉ chTypes := by
      intro hc
      simp [megPresent, hc] at hm
    have heeg : ChanType.eeg ∉ chTypes := by
      intro hc
      simp [eegPresent, hc] at he
    have htinv : t0 ≠ ChanType.mag ∧ t0 ≠ ChanType.grad ∧ t0 ≠ ChanType.eeg := by
      refine ⟨?_, ?_, ?_⟩ <;> intro heq <;> subst heq
      · exact hmag ht0
      · exact hgrad ht0
      · exact heeg ht0
    have hinv : 0 < (chTypes.filter fun t =>
        decide (t ≠ ChanType.mag ∧ t ≠ ChanType.grad ∧ t ≠ ChanType.eeg)).length := by
      have hmem : t0 ∈ chTypes.filter fun t =>
          decide (t ≠ ChanType.mag ∧ t ≠ ChanType.grad ∧ t ≠ ChanType.eeg) :=
        List.mem_filter.mpr ⟨ht0, by simp [htinv.1, htinv.2.1, htinv.2.2]⟩
      exact List.length_pos.mpr (List.ne_nil_of_mem hmem)
    rw [if_pos hinv]
    exact ⟨_, rfl⟩

/-- Witness for the amended C8 at a concrete mixed EEG/MEG recording. -/
theorem C8_channel_type_validation_witness :
    (megPresent [ChanType.eeg, ChanType.mag] = true ∧
      eegPresent [ChanType.eeg, ChanType.mag] = true) ∧
    ∃ msg, fitSubsets ["a", "b"] [ChanType.eeg, ChanType.mag] (fun _ => [0, 1])
      (1/2) 1 = Except.error msg :=
  ⟨⟨by decide, by decide⟩,
    C8_channel_type_validation ["a", "b"] [ChanType.eeg, ChanType.mag]
      (fun _ => [0, 1]) (1/2) 1 (Or.inl ⟨by decide, by decide⟩)⟩

/-! ### C5 -/

lemma foldl_setCol_zero (pf : List ℕ) (K : ℕ → ℕ → ℚ) (j : ℕ) (hj : j ∉ pf)
    (ks : List ℕ) (hks : ∀ k ∈ ks, k < pf.length) (M : ℕ → ℕ → ℚ) (i : ℕ)
    (h0 : M i j = 0) :
    (ks.foldl (fun M k => setCol M (pf.getD k 0) fun i' => K i' k) M) i j = 0 := by
  induction ks generalizing M with
  | nil => exact h0
  | cons k ks ih =>
    rw [List.foldl_cons]
    apply ih (fun k' hk' => hks k' (List.mem_cons_of_mem _ hk'))
    unfold setCol
    rw [if_neg]
    · exact h0
    · intro heq
      have hk : k < pf.length := hks k (List.mem_cons_self _ _)
      have hmem : pf.getD k 0 ∈ pf := by
        rw [List.getD_eq_getElem _ _ hk]
        exact List.getElem_mem hk
      rw [heq] at hj
      exact hj hmem

lemma buildMapping_zero_outside {pf : List ℕ} {K : ℕ → ℕ → ℚ} {j : ℕ}
    (hj : j ∉ pf) (i : ℕ) : buildMapping pf K i j = 0 :=
  foldl_setCol_zero pf K j hj (List.range pf.length)
    (fun _k hk => List.mem_range.mp hk) _ i rfl

lemma getD_map_of_lt {α β : Type} (f : α → β) (l : List α) (d : β) (d' : α)
    (r : ℕ) (h : r < l.length) : (l.map f).getD r d = f (l.getD r d') := by
  rw [List.getD_eq_getElem _ _ (by simpa using h), List.getElem_map,
    List.getD_eq_getElem _ _ h]

lemma getD_map_range_of_lt {β : Type} (f : ℕ → β) (d : β) (n i : ℕ) (h : i < n) :
    ((List.range n).map f).getD i d = f i := by
  rw [getD_map_of_lt f _ d 0 i (by simpa using h), List.getD_eq_getElem _ _
    (by simpa using h), List.getElem_range]

lemma flatten_getD_blocks {α : Type} (d : α) (C : ℕ) (L : List (List α))
    (hlen : ∀ l ∈ L, l.length = C) (r c : ℕ) (hr : r < L.length) (hc : c < C) :
    L.flatten.getD (r * C + c) d = (L.getD r []).getD c d := by
  induction L generalizing r with
  | nil => simp at hr
  | cons hd tl ih =>
    have hhd : hd.length = C := hlen hd (List.mem_cons_self _ _)
    rw [List.flatten_cons]
    cases r with
    | zero =>
      rw [Nat.zero_mul, Nat.zero_add]
      rw [List.getD_append _ _ _ _ (by rw [hhd]; exact hc)]
      rfl
    | succ r' =>
      have hge : hd.length ≤ (r' + 1) * C + c := by
        rw [hhd, Nat.succ_mul]
        exact le_trans (Nat.le_add_left C (r' * C)) (Nat.le_add_right _ c)
      rw [List.getD_append_right _ _ _ _ hge]
      have harith : (r' + 1) * C + c - hd.length = r' * C + c := by
        rw [hhd, Nat.succ_mul]
        omega
      rw [harith]
      rw [ih (fun l hl => hlen l (List.mem_cons_of_mem _ hl)) r' (by simpa using hr)]
      rfl

/-- C5: the stacked operator built by `_get_mappings` has exactly
`n_resample · C` rows of `C` entries each (shape `(n_resample · C, C)`), and
inside the block of rows belonging to subset `r`, every column whose channel
index is not in that subset is identically zero. -/
theorem C5_stacked_operator_shape (chNames : List String)
    (kernel : List ℕ → ℕ → ℕ → ℚ) (chSubsets : List (List String)) :
    (getMappings chNames kernel chSubsets).length =
      chSubsets.length * chNames.length ∧
    (∀ row ∈ getMappings chNames kernel chSubsets, row.length = chNames.length) ∧
    (∀ r, r < chSubsets.length → ∀ c, c < chNames.length →
      ∀ j, j < chNames.length → j ∉ pickFrom chNames (chSubsets.getD r []) →
      ((getMappings chNames kernel chSubsets).getD
        (r * chNames.length + c) []).getD j 1 = 0) := by
  refine ⟨?_, ?_, ?_⟩
  · unfold getMappings
    rw [List.length_flatten, List.map_map]
    have : (List.map (List.length ∘ fun subset =>
        (List.range chNames.length).map fun i =>
          (List.range chNames.length).map fun j =>
            buildMapping (pickFrom chNames subset) (kernel (pickFrom chNames subset)) i j)
        chSubsets) = List.map (fun _ => chNames.length) chSubsets := by
      apply List.map_congr_left
      intro subset _
      simp
    rw [this, List.map_const', List.sum_replicate, smul_eq_mul]
  · intro row hrow
    unfold getMappings at hrow
    rw [List.mem_flatten] at hrow
    obtain ⟨block, hblock, hrowmem⟩ := hrow
    rw [List.mem_map] at hblock
    obtain ⟨subset, _, rfl⟩ := hblock
    rw [List.mem_map] at hrowmem
    obtain ⟨i, _, rfl⟩ := hrowmem
    simp
  · intro r hr c hc j hj hnotin
    unfold getMappings
    rw [flatten_getD_blocks [] chNames.length _
      (by
        intro l hl
        rw [List.mem_map] at hl
        obtain ⟨subset, _, rfl⟩ := hl
        simp)
      r c (by simpa using hr) hc]
    rw [getD_map_of_lt _ _ _ [] r hr]
    rw [getD_map_range_of_lt _ _ _ c hc]
    rw [getD_map_range_of_lt _ _ _ j hj]
    exact buildMapping_zero_outside hnotin c

/-- Witness for C5 at a concrete two-channel recording with one subset. -/
theorem C5_stacked_operator_shape_witness :
    ((0 : ℕ) < 1 ∧ (0 : ℕ) < 2 ∧ (1 : ℕ) < 2 ∧
      1 ∉ pickFrom ["a", "b"] ([["a"]].getD 0 [])) ∧
    ((getMappings ["a", "b"] (fun _ _ _ => 5) [["a"]]).getD
      (0 * ["a", "b"].length + 0) []).getD 1 1 = 0 :=
  ⟨⟨by decide, by decide, by decide, by decide⟩,
    (C5_stacked_operator_shape ["a", "b"] (fun _ _ _ => 5) [["a"]]).2.2 0 (by decide)
      0 (by decide) 1 (by decide) (by decide)⟩

/-! ### C2 -/

lemma reshapeF_apply (T C : ℕ) (A : ℕ → ℕ → ℚ) (t c r : ℕ) (ht : t < T) :
    reshapeF T C A t c r = A t (c + C * r) := by
  have hT : 0 < T := Nat.lt_of_le_of_lt (Nat.zero_le _) ht
  unfold reshapeF
  rw [Nat.add_mul_mod_self_left, Nat.mod_eq_of_lt ht,
    Nat.add_mul_div_left _ _ hT, Nat.div_eq_of_lt ht, Nat.zero_add]

/-- C2: in `_compute_correlations`, the Fortran-order reshape of
`data.T.dot(mappings.T)` to `(T, C, R)` places at index `(t, c, r)` exactly
the prediction of sensor `c` at time `t` made by the `r`-th stacked operator,
i.e. row `r·C + c` of the stacked operator applied to the data column at
time `t`. -/
theorem C2_reshape_recovers_predictions (nChannels T nResample : ℕ)
    (data mappings : ℕ → ℕ → ℚ) (t c r : ℕ)
    (ht : t < T) (_hc : c < nChannels) (_hr : r < nResample) :
    reshapeF T nChannels (yPredFlat nChannels data mappings) t c r =
      ∑ s ∈ Finset.range nChannels, mappings (r * nChannels + c) s * data s t := by
  rw [reshapeF_apply _ _ _ _ _ _ ht]
  unfold yPredFlat
  have hidx : c + nChannels * r = r * nChannels + c := by ring
  rw [hidx]
  exact Finset.sum_congr rfl fun s _ => mul_comm _ _

/-- Witness for C2 at a concrete `(2 sensors × 1 sample)` segment with three
stacked operators. -/
theorem C2_reshape_recovers_predictions_witness :
    ((0 : ℕ) < 1 ∧ (1 : ℕ) < 2 ∧ (2 : ℕ) < 3) ∧
    reshapeF 1 2 (yPredFlat 2 (fun s t => (s + t : ℚ)) (fun j s => (j * 10 + s : ℚ)))
        0 1 2 =
      ∑ s ∈ Finset.range 2,
        (((2 * 2 + 1 : ℕ) : ℚ) * 10 + (s : ℚ)) * ((s : ℚ) + ((0 : ℕ) : ℚ)) :=
  ⟨⟨by decide, by decide, by decide⟩,
    C2_reshape_recovers_predictions 2 1 3 _ _ 0 1 2 (by decide) (by decide) (by decide)⟩

/-! ### C3 -/

/-- C3: the pooled prediction at `(t, c)` is the element-wise median over the
`n_resample` axis — for even `n_resample` the mean of the two middle values
of any sorted arrangement of the `R` per-resample predictions — and the
per-sensor score is the uncentered cosine similarity
`Σ(actual·pred) / (√(Σ actual²) · √(Σ pred²))` over the `T` samples, with no
mean-centering of either series. -/
theorem C3_median_pool_and_cosine (nChannels nResample T : ℕ)
    (data mappings : ℕ → ℕ → ℚ) (t c : ℕ) (s : List ℚ)
    (hperm : s.Perm ((List.range nResample).map fun r =>
      reshapeF T nChannels (yPredFlat nChannels data mappings) t c r))
    (hsort : List.Sorted (· ≤ ·) s)
    (heven : nResample % 2 = 0) (_hpos : 0 < nResample)
    (ha : sumSqActual T data c ≠ 0)
    (hb : sumSqPred nChannels nResample T data mappings c ≠ 0) :
    pooledPred nChannels nResample T data mappings t c =
      (s.getD (nResample / 2 - 1) 0 + s.getD (nResample / 2) 0) / 2 ∧
    computeCorrelations nChannels nResample T data mappings c =
      some ((↑(∑ u ∈ Finset.range T,
          data c u * pooledPred nChannels nResample T data mappings u c) : ℝ) /
        (Real.sqrt (∑ u ∈ Finset.range T, ((data c u : ℝ)) ^ 2) *
          Real.sqrt (∑ u ∈ Finset.range T,
            ((pooledPred nChannels nResample T data mappings u c : ℝ)) ^ 2))) := by
  constructor
  · unfold pooledPred npMedian
    have hlen : ((List.range nResample).map fun r =>
        reshapeF T nChannels (yPredFlat nChannels data mappings) t c r).length =
        nResample := by simp
    have hs : s = List.insertionSort (fun a b => a ≤ b)
        ((List.range nResample).map fun r =>
          reshapeF T nChannels (yPredFlat nChannels data mappings) t c r) := by
      apply List.eq_of_perm_of_sorted
        (hperm.trans (List.perm_insertionSort _ _).symm) hsort
      exact List.sorted_insertionSort _ _
    rw [hlen, if_neg (by omega), ← hs]
  · unfold computeCorrelations
    rw [if_neg (by push_neg; exact ⟨ha, hb⟩)]
    have e1 : ((sumSqActual T data c : ℚ) : ℝ) =
        ∑ u ∈ Finset.range T, ((data c u : ℝ)) ^ 2 := by
      unfold sumSqActual
      push_cast
      rfl
    have e2 : ((sumSqPred nChannels nResample T data mappings c : ℚ) : ℝ) =
        ∑ u ∈ Finset.range T,
          ((pooledPred nChannels nResample T data mappings u c : ℝ)) ^ 2 := by
      unfold sumSqPred
      push_cast
      rfl
    rw [e1, e2]
    rfl

/-- Witness for C3 at a concrete one-channel, one-sample segment with two
resamples. -/
theorem C3_median_pool_and_cosine_witness :
    (([1, 1] : List ℚ).Perm ((List.range 2).map fun r =>
        reshapeF 1 1 (yPredFlat 1 (fun _ _ => 1) (fun _ _ => 1)) 0 0 r) ∧
      List.Sorted (· ≤ ·) ([1, 1] : List ℚ) ∧
      2 % 2 = 0 ∧ 0 < 2 ∧
      sumSqActual 1 (fun _ _ => 1) 0 ≠ 0 ∧
      sumSqPred 1 2 1 (fun _ _ => 1) (fun _ _ => 1) 0 ≠ 0) ∧
    (pooledPred 1 2 1 (fun _ _ => 1) (fun _ _ => 1) 0 0 =
      (([1, 1] : List ℚ).getD (2 / 2 - 1) 0 + ([1, 1] : List ℚ).getD (2 / 2) 0) / 2 ∧
    computeCorrelations 1 2 1 (fun _ _ => 1) (fun _ _ => 1) 0 =
      some ((↑(∑ u ∈ Finset.range 1,
          (1 : ℚ) * pooledPred 1 2 1 (fun _ _ => 1) (fun _ _ => 1) u 0) : ℝ) /
        (Real.sqrt (∑ u ∈ Finset.range 1, (((1 : ℚ) : ℝ)) ^ 2) *
          Real.sqrt (∑ u ∈ Finset.range 1,
            ((pooledPred 1 2 1 (fun _ _ => 1) (fun _ _ => 1) u 0 : ℝ)) ^ 2)))) := by
  have hval : ∀ r : ℕ,
      reshapeF 1 1 (yPredFlat 1 (fun _ _ => 1) (fun _ _ => 1)) 0 0 r = 1 := by
    intro r
    simp [reshapeF, yPredFlat]
  have hlist : ((List.range 2).map fun r =>
      reshapeF 1 1 (yPredFlat 1 (fun _ _ => 1) (fun _ _ => 1)) 0 0 r) = [1, 1] := by
    rw [List.range_succ, List.range_succ, List.range_zero]
    simp [hval]
  have hperm : ([1, 1] : List ℚ).Perm ((List.range 2).map fun r =>
      reshapeF 1 1 (yPredFlat 1 (fun _ _ => 1) (fun _ _ => 1)) 0 0 r) := by
    rw [hlist]
  have ha : sumSqActual 1 (fun _ _ => 1) 0 ≠ 0 := by simp [sumSqActual]
  have hb : sumSqPred 1 2 1 (fun _ _ => 1) (fun _ _ => 1) 0 ≠ 0 := by
    have hmed : pooledPred 1 2 1 (fun _ _ => 1) (fun _ _ => 1) 0 0 = 1 := by
      unfold pooledPred
      rw [hlist]
      norm_num [npMedian, List.insertionSort, List.orderedInsert]
    simp [sumSqPred, hmed]
  exact ⟨⟨hperm, by decide, by decide, by decide, ha, hb⟩,
    C3_median_pool_and_cosine 1 2 1 (fun _ _ => 1) (fun _ _ => 1) 0 0 [1, 1]
      hperm (by decide) (by decide) (by decide) ha hb⟩

end AutorejectRansac
